import Mathlib


/-!
Verification development for the python-semantic-release core.

The definitions below are a shallow embedding of the source files under
`semantic_release/`:
  * `version/algorithm.py`   — `tags_and_versions`,
    `_bfs_for_latest_version_in_history`, `_increment_version`, `next_version`
  * `version/version.py`     — `Version.bump`
  * `commit_parser/angular.py`, `commit_parser/tag.py`, `commit_parser/token.py`
  * `changelog/release_history.py` — `release_history`
  * `hvcs/_base.py`, `hvcs/gitlab.py`

Modules of the repository that are referenced by this code but whose files are
not part of the source tree (`semantic_release/enums.py` with `LevelBump`,
`semantic_release/version/translator.py` with `VersionTranslator`,
`semantic_release/commit_parser/util.py` with `parse_paragraphs` and
`breaking_re`, and the rich `Version` value object described by the
specification, section 3) are modelled from the specification; each such
definition carries a doc comment starting with `Modelled from the spec:`.

Python-specific behaviour is made explicit: functions that can raise return
`Except PyErr`, machine-independent values (strings, naturals) replace Python
objects, and `git` commit/tag objects are plain records of the fields the core
reads (the spec declares git plumbing an external `Repo` capability).
-/

set_option maxRecDepth 4096

namespace SemanticRelease

/-- Modelled from the spec: the exceptions that the embedded code can raise.
`semantic_release/errors.py` defines `CommitParseError`; the remaining
constructors stand for the built-in Python exceptions the algorithm code can
produce (`TypeError` from comparing `None` during sorting, `AttributeError`
from accessing a field of `None`, `IndexError` from `merge_bases[0]`,
`ValueError` and `NotImplementedError` from `next_version`, `RuntimeError`
from `release_history`). -/
inductive PyErr where
  | typeError
  | attributeError
  | indexError
  | valueError
  | notImplementedError
  | runtimeError
  | versionParseError
  | commitParseError (msg : String)
deriving DecidableEq, Repr

/-- Modelled from the spec: `LevelBump` from `semantic_release/enums.py`
(absent from the source tree), the totally ordered enumeration
`NO_RELEASE < PATCH < MINOR < MAJOR` of section 3. -/
inductive LevelBump where
  | NO_RELEASE
  | PATCH
  | MINOR
  | MAJOR
deriving DecidableEq, Repr

namespace LevelBump

/-- Numeric value of a `LevelBump`, mirroring the `IntEnum` encoding. -/
def toNat : LevelBump → Nat
  | .NO_RELEASE => 0
  | .PATCH => 1
  | .MINOR => 2
  | .MAJOR => 3

/-- Python `<` on the `LevelBump` enum (comparison by numeric value). -/
def lbLt (a b : LevelBump) : Bool := a.toNat < b.toNat

/-- Python `min` of two `LevelBump` values. -/
def lbMin (a b : LevelBump) : LevelBump := if b.toNat ≤ a.toNat then b else a

/-- Python `max` of two `LevelBump` values. -/
def lbMax (a b : LevelBump) : LevelBump := if a.toNat ≤ b.toNat then b else a

end LevelBump

/-- Modelled from the spec: the `Version` value object of section 3, as used by
`version/algorithm.py` and `version/version.py`:
`(major, minor, patch, prerelease_token?, prerelease_revision?, build?)`.
The optional prerelease suffix is the pair (token, revision); per the spec,
`is_prerelease` holds exactly when the suffix is present. -/
structure Version where
  major : Nat
  minor : Nat
  patch : Nat
  prerelease : Option (String × Nat) := none
  build : Option String := none
deriving DecidableEq, Repr

namespace Version

/-- Modelled from the spec: `is_prerelease ⇔ prerelease_token is set`. -/
def is_prerelease (v : Version) : Bool := v.prerelease.isSome

/-- Modelled from the spec: the prerelease token of a version, when present. -/
def prereleaseToken (v : Version) : Option String := v.prerelease.map Prod.fst

/-- Modelled from the spec: the prerelease revision of a version, when
present. -/
def prereleaseRevision (v : Version) : Option Nat := v.prerelease.map Prod.snd

/-- Modelled from the spec: `finalize_version()` drops the prerelease
suffix. -/
def finalize_version (v : Version) : Version := { v with prerelease := none }

/-- Modelled from the spec: `to_prerelease(token, revision?)` attaches or
replaces the prerelease suffix; the revision defaults to 1. -/
def to_prerelease (v : Version) (token : String) (revision : Nat := 1) :
    Version :=
  { v with prerelease := some (token, revision) }

/-- Modelled from the spec: subtraction `a - b` returns the coarsest
`LevelBump` that differs between the core triples. -/
def sub (a b : Version) : LevelBump :=
  if a.major ≠ b.major then .MAJOR
  else if a.minor ≠ b.minor then .MINOR
  else if a.patch ≠ b.patch then .PATCH
  else .NO_RELEASE

/-- The `semver` library primitive `bump_prerelease(token)` used by
`Version.bump` in `version/version.py`: with an existing suffix the numeric
tail is incremented (the token argument is ignored), otherwise the suffix
starts at `token.1`. -/
def bump_prerelease (v : Version) (token : String) : Version :=
  match v.prerelease with
  | some (t, n) => { v with prerelease := some (t, n + 1) }
  | none => { v with prerelease := some (token, 1) }

/-- `Version.bump` from `version/version.py` (lines 9-28).  The class inherits
from `semver.VersionInfo`: `bump_major`, `bump_minor` and `bump_patch`
increment the respective field, zero the lower fields and drop the prerelease
and build parts.  Python default arguments are `prerelease=False` and
`prerelease_token="beta"`. -/
def bump (v : Version) (level : LevelBump) (prerelease : Bool := false)
    (prerelease_token : String := "beta") : Version :=
  if level = .NO_RELEASE then
    -- Return a copy rather than the same instance for consistency
    v
  else if v.prerelease.isSome && prerelease then
    v.bump_prerelease "rc"
  else
    let version : Version :=
      match level with
      | .MAJOR => { major := v.major + 1, minor := 0, patch := 0 }
      | .MINOR => { major := v.major, minor := v.minor + 1, patch := 0 }
      | .PATCH => { major := v.major, minor := v.minor, patch := v.patch + 1 }
      | .NO_RELEASE => v
    if prerelease then version.bump_prerelease prerelease_token else version

/-- Modelled from the spec: ordering of the optional prerelease suffix under
SemVer 2.0.0 precedence — a full release is greater than any prerelease of
the same core, tokens compare lexicographically, revisions numerically. -/
def comparePre : Option (String × Nat) → Option (String × Nat) → Ordering
  | none, none => .eq
  | none, some _ => .gt
  | some _, none => .lt
  | some (t1, r1), some (t2, r2) => (compare t1 t2).then (compare r1 r2)

/-- Modelled from the spec: SemVer 2.0.0 precedence comparison of two
versions (build metadata ignored in ordering). -/
def compareV (a b : Version) : Ordering :=
  (compare a.major b.major).then
    ((compare a.minor b.minor).then
      ((compare a.patch b.patch).then (comparePre a.prerelease b.prerelease)))

/-- Python `<` between versions: strict SemVer precedence. -/
def vLt (a b : Version) : Bool := compareV a b == .lt

/-- Python `<=` between versions under SemVer precedence. -/
def vLe (a b : Version) : Bool := !(compareV a b == .gt)

end Version

/-- A git commit object, reduced to the fields the core reads (spec section 6:
`{hexsha, message, author, author_tz_offset, committed_date, parents}`).
Hex shas are modelled as naturals; parent links are by sha. -/
structure GitCommit where
  sha : Nat
  message : String
  parents : List Nat := []
  author : String := ""
  author_tz_offset : Int := 0
  committed_date : Int := 0
deriving DecidableEq, Repr

/-- The object behind a tag ref (spec section 6): annotated tags carry a
tagger, a timezone offset and a tagged date; for lightweight tags
`tag.object` is the commit itself. -/
inductive TagObjData where
  | annotated (tagger : String) (tagger_tz_offset : Int) (tagged_date : Int)
  | commitObj (author : String) (author_tz_offset : Int) (committed_date : Int)
deriving DecidableEq, Repr

/-- A git tag ref: name, target commit (by sha, mirroring `tag.commit` whose
equality is sha equality) and the underlying object. -/
structure GitTag where
  name : String
  target : Nat
  obj : TagObjData := .commitObj "" 0 0
deriving DecidableEq, Repr

/-- `ParsedCommit` from `commit_parser/token.py`. -/
structure ParsedCommit where
  bump : LevelBump
  type : String
  scope : Option String
  descriptions : List String
  breaking_descriptions : List String
  commit : GitCommit
deriving DecidableEq, Repr

/-- `ParseError` from `commit_parser/token.py`. -/
structure ParseError where
  commit : GitCommit
  error : String
deriving DecidableEq, Repr

/-- `ParseError.raise_error` from `commit_parser/token.py` (lines 20-25):
raises `CommitParseError(self.error)`. -/
def ParseError.raise_error (e : ParseError) : Except PyErr Unit :=
  .error (.commitParseError e.error)

/-- `ParseResult = ParsedCommit | ParseError` from `commit_parser/token.py`,
as a tagged union. -/
inductive ParseResult where
  | parsed (p : ParsedCommit)
  | failed (e : ParseError)
deriving DecidableEq, Repr

/-- Python `str.isspace` on the ASCII whitespace characters matched by the
regex class `\s`. -/
def pyIsSpace (c : Char) : Bool :=
  c = ' ' || c = '\t' || c = '\n' || c = '\r' || c = '\x0b' || c = '\x0c'

/-- Python substring membership `needle in hay` on character lists. -/
def listContainsSeq (needle : List Char) : List Char → Bool
  | [] => needle.isEmpty
  | c :: t => needle.isPrefixOf (c :: t) || listContainsSeq needle t

/-- Python substring membership `needle in hay` on strings. -/
def pyIn (needle hay : String) : Bool := listContainsSeq needle.data hay.data

/-- Scanner for Python `str.replace`: replace every non-overlapping
occurrence of `needle`, scanning left to right.  The first argument counts
characters of an already-matched occurrence still to be skipped, making the
recursion structural on the text. -/
def listReplaceAux (needle rep : List Char) : Nat → List Char → List Char
  | _, [] => []
  | k + 1, _ :: t => listReplaceAux needle rep k t
  | 0, c :: t =>
      if needle ≠ [] ∧ needle.isPrefixOf (c :: t) then
        rep ++ listReplaceAux needle rep (needle.length - 1) t
      else
        c :: listReplaceAux needle rep 0 t

/-- Python `str.replace` on strings.  (For an empty `needle` Python
interleaves the replacement everywhere; the parsers only replace their
non-empty tag tokens, and the model keeps the string unchanged in that
case.) -/
def pyReplace (s needle rep : String) : String :=
  String.mk (listReplaceAux needle.data rep.data 0 s.data)

/-- Python `str.strip()`: remove leading and trailing whitespace. -/
def pyStrip (s : String) : String :=
  String.mk (((s.data.dropWhile pyIsSpace).reverse.dropWhile
    pyIsSpace).reverse)

/-- Split a character list at every occurrence of the separator `"\n\n"`,
non-overlapping, left to right — the semantics of Python
`text.split("\n\n")`. -/
def splitNN : List Char → List (List Char)
  | [] => [[]]
  | '\n' :: '\n' :: rest => [] :: splitNN rest
  | c :: rest =>
      match splitNN rest with
      | [] => [[c]]
      | p :: ps => (c :: p) :: ps

/-- Modelled from the spec: `parse_paragraphs` from
`commit_parser/util.py` (absent from the source tree) — body paragraphs are
split on blank lines, empty paragraphs are dropped. -/
def parse_paragraphs (text : String) : List String :=
  ((splitNN text.data).map String.mk).filter (fun p => p ≠ "")

/-- Modelled from the spec: `breaking_re` from `commit_parser/util.py`
(absent from the source tree), the breaking-change trailer regex
`^BREAKING[ -]CHANGE: (.+)$` applied to a paragraph with `re.match`; returns
the captured text.  `.` does not cross a newline and `$` also matches just
before a final newline. -/
def breakingMatch (p : String) : Option String :=
  let tryPre := fun (pre : String) =>
    if pre.data.isPrefixOf p.data then
      let r := p.data.drop pre.length
      let r1 := if r.getLast? == some '\n' then r.dropLast else r
      if !r1.isEmpty && !(r1.contains '\n') then some (String.mk r1) else none
    else none
  match tryPre "BREAKING CHANGE: " with
  | some c => some c
  | none => tryPre "BREAKING-CHANGE: "

/-- First successful application of `f` along a list — the semantics of a
regex alternation tried left to right with full backtracking into the
continuation. -/
def firstSome {α β : Type} (f : α → Option β) : List α → Option β
  | [] => none
  | a :: t =>
      match f a with
      | some b => some b
      | none => firstSome f t

/-- The capture groups of the Angular parser regex from
`commit_parser/angular.py` (lines 56-65). -/
structure AngularMatchData where
  ptype : String
  scope : Option String
  brk : Bool
  subject : String
  text : Option String
deriving DecidableEq, Repr

/-- Backtracking split between the greedy `\s+` and the following
`(?P<subject>[^\n]+)`: the engine first lets `\s+` take the whole whitespace
run of length `k` and gives characters back one at a time until the subject
can start with a character other than a newline.  Returns the number of
characters `\s+` finally consumes. -/
def findSubjectSplit (r : List Char) : Nat → Option Nat
  | 0 => none
  | j + 1 =>
      match r.drop (j + 1) with
      | c :: _ => if c ≠ '\n' then some (j + 1) else findSubjectSplit r j
      | [] => findSubjectSplit r j

/-- Matching of `\s+(?P<subject>[^\n]+)(:?\n\n(?P<text>.+))?` after the colon
of the Angular or Tag regex.  The subject greedily takes the rest of the
line; afterwards the position is at a newline or at the end, so the stray
`:?` of the source regex (a typo for `?:`) can only match the empty string,
and the optional body group matches exactly when a blank line and a nonempty
remainder follow (`.` crosses newlines under `re.DOTALL`). -/
def afterColon (r : List Char) : Option (String × Option String) :=
  let k := (r.takeWhile pyIsSpace).length
  if k = 0 then none
  else
    match findSubjectSplit r k with
    | none => none
    | some j =>
        let tail := r.drop j
        let subj := tail.takeWhile (fun c => c ≠ '\n')
        let rest := tail.dropWhile (fun c => c ≠ '\n')
        let text :=
          match rest with
          | '\n' :: '\n' :: t => if t.isEmpty then none else some (String.mk t)
          | _ => none
        some (String.mk subj, text)

/-- Matching of `(?P<break>!)?:` followed by `afterColon`, starting right
after the type or the closed scope. -/
def contAfterScope (r : List Char) : Option (Bool × String × Option String) :=
  let st :=
    match r with
    | '!' :: t => (true, t)
    | _ => (false, r)
  match st.2 with
  | ':' :: r2 => (afterColon r2).map (fun p => (st.1, p.1, p.2))
  | _ => none

/-- Candidate end positions for the greedy `(?P<scope>[^\n]+)\)`: positions
`p ≥ 1` in the text after the opening parenthesis holding a `)` preceded
only by non-newline characters, in increasing order. -/
def scopeCandidatePositions (r : List Char) : List Nat :=
  (List.range r.length).filter (fun p =>
    decide (1 ≤ p) && (r.take p).all (fun c => c ≠ '\n') &&
      ((r.drop p).head? == some ')'))

/-- Backtracking over the scope candidates, longest first (the group is
greedy); each candidate is accepted only if the continuation after the `)`
matches. -/
def tryScopeSplits (r : List Char) :
    List Nat → Option (String × Bool × String × Option String)
  | [] => none
  | p :: ps =>
      match contAfterScope (r.drop (p + 1)) with
      | some (brk, subj, text) =>
          some (String.mk (r.take p), brk, subj, text)
      | none => tryScopeSplits r ps

/-- Matching after the type: the optional scope group
`(?:\((?P<scope>[^\n]+)\))?` (tried greedily, with the empty alternative as
fallback) followed by `contAfterScope`. -/
def contAfterType (r : List Char) :
    Option (Option String × Bool × String × Option String) :=
  match r with
  | '(' :: r1 =>
      match tryScopeSplits r1 ((scopeCandidatePositions r1).reverse) with
      | some (sc, brk, subj, text) => some (some sc, brk, subj, text)
      | none =>
          (contAfterScope r).map (fun bst => (none, bst.1, bst.2.1, bst.2.2))
  | _ => (contAfterScope r).map (fun bst => (none, bst.1, bst.2.1, bst.2.2))

/-- The compiled Angular regex of `commit_parser/angular.py` applied with
`re.match` (anchored at the start, `re.DOTALL`): the type alternation is
tried in declaration order with backtracking into the rest of the
pattern. -/
def angularMatchR (allowed : List String) (msg : String) :
    Option AngularMatchData :=
  firstSome
    (fun tag =>
      if tag.data.isPrefixOf msg.data then
        (contAfterType (msg.data.drop tag.length)).map (fun x =>
          ⟨tag, x.1, x.2.1, x.2.2.1, x.2.2.2⟩)
      else none)
    allowed

/-- `AngularParserOptions` from `commit_parser/angular.py` with the source
default values. -/
structure AngularParserOptions where
  allowed_tags : List String :=
    ["build", "chore", "ci", "docs", "feat", "fix", "perf", "style",
     "refactor", "test"]
  minor_tags : List String := ["feat"]
  patch_tags : List String := ["fix", "perf"]
  default_bump_level : LevelBump := .NO_RELEASE
deriving Repr

/-- `LONG_TYPE_NAMES.get(parsed_type, parsed_type)` from
`commit_parser/angular.py` (lines 25-29). -/
def longTypeName (t : String) : String :=
  if t = "feat" then "feature"
  else if t = "docs" then "documentation"
  else if t = "perf" then "performance"
  else t

/-- `AngularCommitParser.parse` from `commit_parser/angular.py`
(lines 67-110). -/
def angularParse (opts : AngularParserOptions) (commit : GitCommit) :
    ParseResult :=
  match angularMatchR opts.allowed_tags commit.message with
  | none => .failed ⟨commit, "Unable to parse commit message"⟩
  | some m =>
      let descriptions :=
        match m.text with
        | some t => parse_paragraphs t
        | none => []
      let descriptions := m.subject :: descriptions
      let breaking_descriptions :=
        (descriptions.drop 1).filterMap breakingMatch
      let level_bump :=
        if m.brk || !breaking_descriptions.isEmpty then LevelBump.MAJOR
        else if opts.minor_tags.contains m.ptype then LevelBump.MINOR
        else if opts.patch_tags.contains m.ptype then LevelBump.PATCH
        else opts.default_bump_level
      .parsed ⟨level_bump, longTypeName m.ptype, m.scope, descriptions,
        breaking_descriptions, commit⟩

/-- `TagParserOptions` from `commit_parser/tag.py` with the source default
values. -/
structure TagParserOptions where
  minor_tag : String := ":sparkles:"
  patch_tag : String := ":nut_and_bolt:"
deriving Repr

/-- The module-level regex of `commit_parser/tag.py` (line 15),
`(?P<subject>[^\n]+)(:?\n\n(?P<text>.+))?` applied with `re.match`: it
matches whenever the message starts with a non-newline character; the body
group behaves as in `afterColon`. -/
def tagReMatch (msg : String) : Option (String × Option String) :=
  match msg.data with
  | [] => none
  | c :: _ =>
      if c = '\n' then none
      else
        let subj := msg.data.takeWhile (fun ch => ch ≠ '\n')
        let rest := msg.data.dropWhile (fun ch => ch ≠ '\n')
        let text :=
          match rest with
          | '\n' :: '\n' :: t => if t.isEmpty then none else some (String.mk t)
          | _ => none
        some (String.mk subj, text)

/-- `TagCommitParser.parse` from `commit_parser/tag.py` (lines 36-90). -/
def tagParse (opts : TagParserOptions) (commit : GitCommit) : ParseResult :=
  let message := commit.message
  match tagReMatch message with
  | none =>
      .failed ⟨commit, "Unable to parse the given commit message: " ++ message⟩
  | some (subject0, text) =>
      let cont := fun (level : String) (level_bump : LevelBump)
          (subject : String) =>
        let descriptions :=
          match text with
          | some t => parse_paragraphs t
          | none => []
        let descriptions := pyStrip subject :: descriptions
        let breaking_descriptions :=
          (descriptions.drop 1).filterMap breakingMatch
        let lv :=
          if !breaking_descriptions.isEmpty then ("breaking", LevelBump.MAJOR)
          else (level, level_bump)
        ParseResult.parsed ⟨lv.2, lv.1, none, descriptions,
          breaking_descriptions, commit⟩
      if pyIn opts.minor_tag message then
        cont "feature" .MINOR
          (if subject0 ≠ "" then pyReplace subject0 opts.minor_tag ""
           else subject0)
      else if pyIn opts.patch_tag message then
        cont "fix" .PATCH
          (if subject0 ≠ "" then pyReplace subject0 opts.patch_tag ""
           else subject0)
      else
        .failed
          ⟨commit, "Unable to parse the given commit message: " ++ message⟩

/-- Split a character list at the first occurrence of a character; `none`
when the character is absent. -/
def splitOnCharFirst (c : Char) : List Char → Option (List Char × List Char)
  | [] => none
  | a :: t =>
      if a = c then some ([], t)
      else (splitOnCharFirst c t).map (fun p => (a :: p.1, p.2))

/-- Split a character list at every occurrence of a character. -/
def splitOnCharAll (c : Char) : List Char → List (List Char)
  | [] => [[]]
  | a :: t =>
      match splitOnCharAll c t with
      | [] => [[a]]
      | p :: ps => if a = c then [] :: p :: ps else (a :: p) :: ps

/-- Parse a decimal numeral without leading zeros (a semver numeric
identifier). -/
def parseNatNum (cs : List Char) : Option Nat :=
  if cs ≠ [] ∧ cs.all Char.isDigit ∧ (cs.length = 1 ∨ cs.headD '0' ≠ '0') then
    some (cs.foldl (fun acc c => acc * 10 + (c.toNat - 48)) 0)
  else none

/-- Modelled from the spec: parsing of a semver string
`major.minor.patch[-token.revision][+build]` into the `Version` value object
of section 3 (the rich `Version` class and its parsing regex are absent from
the source tree).  Returns `none` on anything else. -/
def parseVersion (s : String) : Option Version :=
  let cs := s.data
  let withBuild :=
    match splitOnCharFirst '+' cs with
    | some (a, b) => (a, some (String.mk b))
    | none => (cs, none)
  let withPre :=
    match splitOnCharFirst '-' withBuild.1 with
    | some (a, b) => (a, some b)
    | none => (withBuild.1, none)
  match splitOnCharAll '.' withPre.1 with
  | [mj, mn, pt] =>
      match parseNatNum mj, parseNatNum mn, parseNatNum pt with
      | some vmj, some vmn, some vpt =>
          match withPre.2 with
          | none => some ⟨vmj, vmn, vpt, none, withBuild.2⟩
          | some pcs =>
              match splitOnCharAll '.' pcs with
              | [tok, rev] =>
                  match parseNatNum rev with
                  | some n =>
                      if tok.isEmpty then none
                      else some ⟨vmj, vmn, vpt, some (String.mk tok, n),
                        withBuild.2⟩
                  | none => none
              | _ => none
      | _, _, _ => none
  | _ => none

/-- Modelled from the spec: `VersionTranslator` from
`version/translator.py` (absent from the source tree), holding the
`tag_format` — written here as the text before and after the `version`
placeholder — and the configured prerelease token.  Defaults per the spec:
tag format `v` + version, token `"rc"`. -/
structure VersionTranslator where
  fmtHead : String := "v"
  fmtTail : String := ""
  prerelease_token : String := "rc"
deriving Repr

namespace VersionTranslator

/-- Modelled from the spec: `from_tag(tag) → Version?` strips the tag format
and parses; `None` when the tag is not a version tag. -/
def from_tag (tr : VersionTranslator) (tag : String) : Option Version :=
  let cs := tag.data
  if tr.fmtHead.data.isPrefixOf cs && tr.fmtTail.data.isSuffixOf cs &&
      decide (tr.fmtHead.length + tr.fmtTail.length ≤ cs.length) then
    parseVersion (String.mk
      ((cs.drop tr.fmtHead.length).take
        (cs.length - tr.fmtHead.length - tr.fmtTail.length)))
  else none

/-- Modelled from the spec: `from_string(s) → Version` parses a raw version
string; unparseable input is fatal (`VersionParseError`). -/
def from_string (tr : VersionTranslator) (s : String) : Except PyErr Version :=
  match parseVersion s with
  | some v => .ok v
  | none => .error .versionParseError

end VersionTranslator

/-- Comparison used by the `sorted(..., key=lambda v: v[1])` call of
`tags_and_versions` on the optional versions; the mixed cases can only be
reached by a comparison Python would refuse, and are given an arbitrary
value. -/
def optVerLe : Option Version → Option Version → Bool
  | some a, some b => Version.vLe a b
  | none, _ => true
  | some _, none => false

/-- `tags_and_versions` from `version/algorithm.py` (lines 27-40): pairs
every tag with `translator.from_tag(tag.name)` — including tags that do not
translate, whose version is `None` — and sorts descending by version with
Python `sorted(..., reverse=True, key=λ v. v[1])`, a stable descending sort.
A list of two or more pairs in which some version is `None` makes `sorted`
compare `None` against a `Version`, raising `TypeError`. -/
def tags_and_versions (tags : List GitTag) (translator : VersionTranslator) :
    Except PyErr (List (GitTag × Option Version)) :=
  let pairs := tags.map (fun t => (t, translator.from_tag t.name))
  if pairs.length ≤ 1 then .ok pairs
  else if pairs.all (fun p => p.2.isSome) then
    .ok (pairs.insertionSort (fun a b => optVerLe b.2 a.2 = true))
  else .error .typeError

/-- Every sha mentioned by the object store: the shas of the stored commits
and of their parents. -/
def mentionedShas (store : List GitCommit) : List Nat :=
  store.foldr (fun c acc => c.sha :: c.parents ++ acc) []

/-- Parents of the commit with the given sha (`node.parents` after looking
the object up in the store; a sha outside the store has no parents). -/
def parentsOf (store : List GitCommit) (sha : Nat) : List Nat :=
  match store.find? (fun c => c.sha == sha) with
  | some c => c.parents
  | none => []

/-- Size of the search frontier: mentioned or queued shas not yet visited.
Each recursive call of the breadth-first search strictly shrinks it. -/
def bfsUnseen (store : List GitCommit) (visited q : List Nat) : Nat :=
  ((q ++ mentionedShas store).toFinset \ visited.toFinset).card

/-- The inner recursive `bfs(visited, q)` of
`_bfs_for_latest_version_in_history` in `version/algorithm.py`
(lines 56-84), with the FIFO queue as a list.  Note the source returns
`None` outright when the dequeued node has already been visited, instead of
skipping it and continuing with the rest of the queue. -/
def bfsSearch (store : List GitCommit) (tvs : List (GitTag × Version))
    (visited q : List Nat) : Option Version :=
  match q with
  | [] => none
  | node :: rest =>
      if h : visited.contains node then none
      else
        match tvs.find? (fun tv => tv.1.target == node) with
        | some tv => some tv.2
        | none =>
            bfsSearch store tvs (node :: visited)
              (rest ++ parentsOf store node)
termination_by bfsUnseen store visited q
decreasing_by
  have hnv : p ∉ visited := by simpa using h
  have hpar : ∀ x ∈ parentsOf store p, x ∈ mentionedShas store := by
    intro x hx
    unfold parentsOf at hx
    cases hf : store.find? (fun c => c.sha == p) with
    | none => rw [hf] at hx; simp at hx
    | some c =>
        rw [hf] at hx
        simp only at hx
        have hc : c ∈ store := List.mem_of_find?_eq_some hf
        clear hf
        induction store with
        | nil => simp at hc
        | cons d t ih =>
            rcases List.mem_cons.mp hc with hcd | hcd
            · subst hcd
              show x ∈ c.sha :: (c.parents ++ mentionedShas t)
              exact List.mem_cons_of_mem _ (List.mem_append_left _ hx)
            · show x ∈ d.sha :: (d.parents ++ mentionedShas t)
              exact List.mem_cons_of_mem _ (List.mem_append_right _ (ih hcd))
  apply Finset.card_lt_card
  have hsub : ((ps ++ parentsOf store p) ++
      mentionedShas store).toFinset \ (p :: visited).toFinset ⊆
      ((p :: ps) ++ mentionedShas store).toFinset \ visited.toFinset := by
    intro x hx
    simp only [Finset.mem_sdiff, List.mem_toFinset, List.mem_append,
      List.mem_cons] at hx ⊢
    obtain ⟨hin, hnotv⟩ := hx
    push_neg at hnotv
    refine ⟨?_, hnotv.2⟩
    rcases hin with (hq | hq) | hq
    · exact Or.inl (Or.inr hq)
    · exact Or.inr (hpar x hq)
    · exact Or.inr hq
  rw [Finset.ssubset_iff_of_subset hsub]
  refine ⟨p, ?_, ?_⟩
  · simp [List.mem_toFinset, hnv]
  · simp [List.mem_toFinset]

/-- `_bfs_for_latest_version_in_history` from `version/algorithm.py`
(lines 43-88): search the merge base and its ancestry for a commit matching a
full-release tag. -/
def _bfs_for_latest_version_in_history (store : List GitCommit)
    (merge_base : Nat)
    (full_release_tags_and_versions : List (GitTag × Version)) :
    Option Version :=
  bfsSearch store full_release_tags_and_versions [] [merge_base]

/-- The `major_on_zero` clamp at the head of `_increment_version`
(`version/algorithm.py`, lines 118-127): on a 0.x.y version with
`major_on_zero=False` the increment level is reduced to at most `MINOR`. -/
def effectiveBump (latest_version : Version) (level_bump : LevelBump)
    (major_on_zero : Bool) : LevelBump :=
  if !major_on_zero && latest_version.major == 0 then
    LevelBump.lbMin level_bump .MINOR
  else level_bump

/-- `_increment_version` from `version/algorithm.py` (lines 91-169). -/
def _increment_version (latest_version latest_full_version
    latest_full_version_in_history : Version) (level_bump : LevelBump)
    (prerelease : Bool) (prerelease_token : String) (major_on_zero : Bool) :
    Version :=
  let level_bump := effectiveBump latest_version level_bump major_on_zero
  if prerelease then
    let target_final_version := latest_full_version.finalize_version
    let diff := latest_version.sub latest_full_version_in_history
    if LevelBump.lbLt diff level_bump then
      (target_final_version.bump level_bump).to_prerelease prerelease_token
    else
      latest_version.to_prerelease prerelease_token
        (if latest_version.prereleaseToken ≠ some prerelease_token then 1
         else latest_version.prereleaseRevision.getD 0 + 1)
  else if latest_version.is_prerelease then
    let diff := latest_version.sub latest_full_version_in_history
    if LevelBump.lbLt diff level_bump then
      (latest_version.bump level_bump).finalize_version
    else latest_version.finalize_version
  else latest_version.bump level_bump

/-- The `Repo` capability consumed by `next_version` and `release_history`
(spec sections 1 and 6): tag refs, the object store giving each commit its
parents, the active branch name, `merge_base` (whose git binding can yield
zero, one or several results, each possibly `None`), and reverse
chronological commit iteration — unbounded, or over the range
`"{version.as_tag()}..."` which is abstracted as a function of the
version. -/
structure RepoCap where
  tags : List GitTag
  store : List GitCommit
  activeBranch : String
  mergeBase : String → String → List (Option Nat)
  iterCommitsAll : List GitCommit
  iterCommitsSince : Version → List GitCommit

/-- The commit walk of `next_version` (`version/algorithm.py`,
lines 243-290): parse every commit, record the bump levels of successful
parses, and stop at the first commit carrying a qualifying tag, whose
version becomes the latest version.  The recorded levels model the Python
set `parsed_levels`; only their maximum is consumed. -/
def walkCommits (parse : GitCommit → ParseResult)
    (cands : List (GitTag × Version)) :
    List GitCommit → List LevelBump × Option Version
  | [] => ([], none)
  | commit :: rest =>
      let lvls : List LevelBump :=
        match parse commit with
        | .parsed p => [p.bump]
        | .failed _ => []
      match cands.find? (fun tv => tv.1.target == commit.sha) with
      | some tv => (lvls, some tv.2)
      | none =>
          let r := walkCommits parse cands rest
          (lvls ++ r.1, r.2)

/-- The comprehensions over the `tags_and_versions` pairs in `next_version`:
accessing `v.is_prerelease` on a pair whose version is `None` raises
`AttributeError`. -/
def pyUnwrapPairs (pairs : List (GitTag × Option Version)) :
    Except PyErr (List (GitTag × Version)) :=
  if pairs.all (fun p => p.2.isSome) then
    .ok (pairs.filterMap (fun p => p.2.map (fun v => (p.1, v))))
  else .error .attributeError

/-- `next_version` from `version/algorithm.py` (lines 172-313).  The
`Version(0, 0, 0, prerelease_token=...)` fallbacks are modelled as the plain
version `0.0.0` (the spec keeps the token only inside the prerelease
suffix). -/
def next_version (repo : RepoCap) (translator : VersionTranslator)
    (parse : GitCommit → ParseResult) (prerelease : Bool := false)
    (major_on_zero : Bool := true) : Except PyErr Version := do
  let pairs ← tags_and_versions repo.tags translator
  let all_git_tags_as_versions ← pyUnwrapPairs pairs
  let all_full_release_tags_and_versions :=
    all_git_tags_as_versions.filter (fun tv => !tv.2.is_prerelease)
  let zero ← translator.from_string "0.0.0"
  let latest :=
    match all_full_release_tags_and_versions with
    | tv :: _ => (some tv.1, tv.2)
    | [] => (none, zero)
  let merge_bases :=
    match latest.1 with
    | none => repo.mergeBase repo.activeBranch repo.activeBranch
    | some t => repo.mergeBase t.name repo.activeBranch
  if merge_bases.length > 1 then throw .notImplementedError
  let mb0 ← match merge_bases.head? with
    | none => throw PyErr.indexError
    | some x => pure x
  let merge_base ← match mb0 with
    | none => throw PyErr.valueError
    | some s => pure s
  let latest_full_version_in_history :=
    _bfs_for_latest_version_in_history repo.store merge_base
      all_full_release_tags_and_versions
  let commits_since_last_full_release :=
    match latest_full_version_in_history with
    | none => repo.iterCommitsAll
    | some v => repo.iterCommitsSince v
  let cands := all_git_tags_as_versions.filter
    (fun tv => prerelease || !tv.2.is_prerelease)
  let walked := walkCommits parse cands commits_since_last_full_release
  let latest_version :=
    walked.2.getD (latest_full_version_in_history.getD ⟨0, 0, 0, none, none⟩)
  let level_bump := walked.1.foldl LevelBump.lbMax .NO_RELEASE
  if level_bump = .NO_RELEASE then
    return latest_version
  return _increment_version latest_version latest.2
    (latest_full_version_in_history.getD ⟨0, 0, 0, none, none⟩)
    level_bump prerelease translator.prerelease_token major_on_zero

/-- Reachability along parent links in a commit store: `AncestorOf store a b`
holds when `b` is `a` itself or a transitive parent of `a`. -/
inductive AncestorOf (store : List GitCommit) : Nat → Nat → Prop
  | refl (s : Nat) : AncestorOf store s s
  | step {a b c : Nat} (cmt : GitCommit) (hmem : cmt ∈ store)
      (hsha : cmt.sha = b) (hpar : c ∈ cmt.parents)
      (h : AncestorOf store a b) : AncestorOf store a c

/-- The commit DAG of the C2 failing input: the merge base `0` is a merge
commit with parents `1` and `2`, which share the ancestor `3`, whose parent
`4` carries the only full-release tag `v1.0.0`.  Breadth-first order from `0`
dequeues `0, 1, 2, 3, 3, ...` — the second dequeue of `3` finds it already
visited. -/
def mergeHistoryStore : List GitCommit :=
  [ { sha := 0, message := "m", parents := [1, 2] },
    { sha := 1, message := "a", parents := [3] },
    { sha := 2, message := "b", parents := [3] },
    { sha := 3, message := "c", parents := [4] },
    { sha := 4, message := "d", parents := [] } ]

/-- The full-release tags of the C2 failing input: `v1.0.0` on commit `4`. -/
def mergeHistoryTags : List (GitTag × Version) :=
  [(⟨"v1.0.0", 4, .commitObj "" 0 0⟩, ⟨1, 0, 0, none, none⟩)]

/-- Bump levels parsed from a list of commits: the levels of the successful
parses, in order; parse errors contribute nothing (the contents of the
Python set `parsed_levels` when the walk sees no tagged commit). -/
def collectLevels (parse : GitCommit → ParseResult) :
    List GitCommit → List LevelBump
  | [] => []
  | c :: rest =>
      (match parse c with
       | .parsed p => [p.bump]
       | .failed _ => []) ++ collectLevels parse rest

/-- The commits of the C1 witness: `feat!: C`, `fix: B`, `feat: A`, newest
first, on top of the tagged commit `4`. -/
def c1Commits : List GitCommit :=
  [{ sha := 1, message := "feat!: C" }, { sha := 2, message := "fix: B" },
   { sha := 3, message := "feat: A" }]

/-- The repository of the C1 witness: tag `v1.2.3` on commit `4`, branch
`main` whose merge base with the tag is commit `4` itself. -/
def c1Repo : RepoCap :=
  { tags := [⟨"v1.2.3", 4, .commitObj "" 0 0⟩],
    store := [],
    activeBranch := "main",
    mergeBase := fun a b =>
      if a == "v1.2.3" && b == "main" then [some 4] else [],
    iterCommitsAll := [],
    iterCommitsSince := fun v =>
      if v = ⟨1, 2, 3, none, none⟩ then c1Commits else [] }

/-- The repository of the C5 witness: tag `v0.5.0` on commit `4`, one
breaking commit `feat!: X` above it. -/
def c5Repo : RepoCap :=
  { tags := [⟨"v0.5.0", 4, .commitObj "" 0 0⟩],
    store := [],
    activeBranch := "main",
    mergeBase := fun a b =>
      if a == "v0.5.0" && b == "main" then [some 4] else [],
    iterCommitsAll := [],
    iterCommitsSince := fun v =>
      if v = ⟨0, 5, 0, none, none⟩ then [{ sha := 1, message := "feat!: X" }]
      else [] }

/-- The body paragraphs belonging to an Angular match: the paragraphs of the
matched body text (the parser stores them as `descriptions[1:]`). -/
def paragraphsOfMatch (m : AngularMatchData) : List String :=
  match m.text with
  | some t => parse_paragraphs t
  | none => []

/-- A dynamically typed Python return value, used to compare what the base
HVCS operations return against what a concrete client returns. -/
inductive PyVal where
  | bool (b : Bool)
  | str (s : String)
  | int (n : Int)
  | pynone
deriving DecidableEq, Repr

/-- `_not_supported` from `hvcs/_base.py` (lines 19-29): the wrapper emits a
`UserWarning` and returns the constant `True`, whatever the wrapped method
and its annotated return type.  The warning is invisible to the caller of
the operation; only this return value is. -/
def not_supported_result : PyVal := .bool true

namespace HvcsBase

/-- `HvcsBase.compare_url` (`hvcs/_base.py`, lines 78-85), decorated with
`@_not_supported`. -/
def compare_url (from_rev to_rev : String) : PyVal := not_supported_result

/-- `HvcsBase.check_build_status` (`hvcs/_base.py`, lines 87-92), decorated
with `@_not_supported`. -/
def check_build_status (ref : String) : PyVal := not_supported_result

/-- `HvcsBase.upload_dists` (`hvcs/_base.py`, lines 94-99), decorated with
`@_not_supported`. -/
def upload_dists (tag dist_glob : String) : PyVal := not_supported_result

/-- `HvcsBase.create_release` (`hvcs/_base.py`, lines 101-107), decorated
with `@_not_supported`. -/
def create_release (tag changelog : String) (prerelease : Bool := false) :
    PyVal := not_supported_result

/-- `HvcsBase.get_release_id_by_tag` (`hvcs/_base.py`, lines 109-114),
decorated with `@_not_supported`. -/
def get_release_id_by_tag (tag : String) : PyVal := not_supported_result

/-- `HvcsBase.edit_release_changelog` (`hvcs/_base.py`, lines 116-120),
decorated with `@_not_supported`. -/
def edit_release_changelog (release_id : Int) (changelog : String) : PyVal :=
  not_supported_result

/-- `HvcsBase.create_or_update_release` (`hvcs/_base.py`, lines 122-129),
decorated with `@_not_supported`. -/
def create_or_update_release (tag changelog : String)
    (prerelease : Bool := false) : PyVal := not_supported_result

/-- `HvcsBase.asset_upload_url` (`hvcs/_base.py`, lines 131-136), decorated
with `@_not_supported`. -/
def asset_upload_url (release_id : String) : PyVal := not_supported_result

/-- `HvcsBase.upload_asset` (`hvcs/_base.py`, lines 138-146), decorated with
`@_not_supported`. -/
def upload_asset (release_id : Int) (file : String)
    (label : Option String := none) : PyVal := not_supported_result

/-- `HvcsBase.remote_url` (`hvcs/_base.py`, lines 148-153), decorated with
`@_not_supported`. -/
def remote_url (use_token : Bool) : PyVal := not_supported_result

/-- `HvcsBase.commit_hash_url` (`hvcs/_base.py`, lines 155-160), decorated
with `@_not_supported`. -/
def commit_hash_url (commit_hash : String) : PyVal := not_supported_result

/-- `HvcsBase.pull_request_url` (`hvcs/_base.py`, lines 162-167), decorated
with `@_not_supported`. -/
def pull_request_url (pr_number : String) : PyVal := not_supported_result

end HvcsBase

/-- A CI job status record as read by `Gitlab.check_build_status`
(`hvcs/gitlab.py`): the `status` string, the job name, and the
`allow_failure` flag. -/
structure GlJobStatus where
  status : String
  name : String
  allow_failure : Bool
deriving DecidableEq, Repr

/-- The decision loop of `Gitlab.check_build_status` (`hvcs/gitlab.py`,
lines 77-103) over the fetched job statuses: `False` on a pending job or on
a failed job without `allow_failure`, otherwise `True` — so `True` is
exactly the value of a successful, all-jobs-passed build check. -/
def gitlabCheckBuildStatus : List GlJobStatus → Bool
  | [] => true
  | j :: rest =>
      if j.status = "pending" then false
      else if j.status = "failed" ∧ ¬ j.allow_failure then false
      else gitlabCheckBuildStatus rest

/-- Append a parse result at the end of the list held under a key of a
Python `defaultdict(list)`; a fresh key is appended at the end (dicts keep
insertion order). -/
def dictAppend (d : List (String × List ParseResult)) (k : String)
    (r : ParseResult) : List (String × List ParseResult) :=
  match d with
  | [] => [(k, [r])]
  | (k0, l0) :: rest =>
      if k0 = k then (k0, l0 ++ [r]) :: rest
      else (k0, l0) :: dictAppend rest k r

/-- `Release` from `changelog/release_history.py` (lines 41-45): tagger,
committer, tagged date — modelled as the pair (timestamp, timezone offset)
that `datetime.fromtimestamp(ts, tz)` carries — and the per-type buckets. -/
structure Release where
  tagger : String
  committer : String
  tagged_date : Int × Int
  elements : List (String × List ParseResult)
deriving DecidableEq, Repr

/-- The `git` default committer read from the git configuration: the value
of the classmethod call `tag.object.tagger.committer()` that
`release_history` (line 85) makes through the tagger of an annotated tag. -/
def defaultCommitterActor : String := "config-committer"

/-- Release metadata for a freshly encountered tag (`release_history`,
lines 83-102): an annotated tag object contributes its tagger, the
configuration-default committer and its tagged date; a lightweight tag
contributes the commit author in both roles and the committed date with the
author timezone. -/
def mkRelease (tag : GitTag) : Release :=
  match tag.obj with
  | .annotated tagger tz date =>
      ⟨tagger, defaultCommitterActor, (date, tz), []⟩
  | .commitObj author tz date => ⟨author, author, (date, tz), []⟩

/-- Membership of a key in the `released` dict. -/
def hasRelKey (rels : List (Option Version × Release)) (k : Option Version) :
    Bool :=
  rels.any (fun p => decide (p.1 = k))

/-- `released.setdefault(the_version, release)`: insert at the end only when
the key is absent. -/
def setdefaultRel (rels : List (Option Version × Release))
    (k : Option Version) (rel : Release) : List (Option Version × Release) :=
  if hasRelKey rels k then rels else rels ++ [(k, rel)]

/-- `released[the_version]["elements"][commit_type].append(parse_result)`:
update the entry holding the key. -/
def appendRelElem (rels : List (Option Version × Release))
    (k : Option Version) (ty : String) (r : ParseResult) :
    List (Option Version × Release) :=
  match rels with
  | [] => []
  | (k0, rel) :: rest =>
      if k0 = k then
        (k0, { rel with elements := dictAppend rel.elements ty r }) :: rest
      else (k0, rel) :: appendRelElem rest k ty r

/-- `ReleaseHistory` from `changelog/release_history.py` (lines 30-38).  The
`released` keys are `Option Version` because the loop assigns
`the_version = version` straight from a `tags_and_versions` pair, whose
version can be `None` (the singleton-tag case that bypasses the sort); the
subsequent `if the_version is None` check then raises `RuntimeError`. -/
structure ReleaseHistory where
  unreleased : List (String × List ParseResult)
  released : List (Option Version × Release)
deriving DecidableEq, Repr

/-- The loop state of `release_history`: the `is_commit_released` flag, the
current version and the two accumulators. -/
structure RHState where
  is_commit_released : Bool
  the_version : Option Version
  unreleased : List (String × List ParseResult)
  released : List (Option Version × Release)
deriving DecidableEq, Repr

/-- The state before the first iteration of `release_history`. -/
def rhInit : RHState := ⟨false, none, [], []⟩

/-- The bucket key of a parse result: `"unknown"` for a `ParseError`, the
(canonicalised) parsed type otherwise (`release_history`, lines 72-74). -/
def resultKey : ParseResult → String
  | .failed _ => "unknown"
  | .parsed p => p.type

/-- One iteration of the commit loop of `release_history`
(`changelog/release_history.py`, lines 70-113): parse the commit, scan the
tag pairs for a tag on this commit (creating the new `Release` entry via
`setdefault`), then file the parse result under `unreleased` when no tag has
been seen yet, and otherwise — after the `RuntimeError` guard on a `None`
version — under the current release. -/
def rhStep (pairs : List (GitTag × Option Version))
    (parse : GitCommit → ParseResult) (st : RHState) (commit : GitCommit) :
    Except PyErr RHState :=
  let parse_result := parse commit
  let commit_type := resultKey parse_result
  let scanned :=
    match pairs.find? (fun tv => tv.1.target == commit.sha) with
    | some (tag, version) =>
        (true, version, setdefaultRel st.released version (mkRelease tag))
    | none => (st.is_commit_released, st.the_version, st.released)
  if !scanned.1 then
    .ok ⟨scanned.1, scanned.2.1,
      dictAppend st.unreleased commit_type parse_result, scanned.2.2⟩
  else
    match scanned.2.1 with
    | none => .error .runtimeError
    | some v =>
        .ok ⟨scanned.1, scanned.2.1, st.unreleased,
          appendRelElem scanned.2.2 (some v) commit_type parse_result⟩

/-- `release_history` from `changelog/release_history.py` (lines 48-115). -/
def release_history (repo : RepoCap) (translator : VersionTranslator)
    (parse : GitCommit → ParseResult) : Except PyErr ReleaseHistory := do
  let pairs ← tags_and_versions repo.tags translator
  let final ← repo.iterCommitsAll.foldlM (rhStep pairs parse) rhInit
  return ⟨final.unreleased, final.released⟩

/-- All parse results stored in a per-type dict, in bucket order. -/
def dictVals (d : List (String × List ParseResult)) : List ParseResult :=
  d.foldr (fun kv acc => kv.2 ++ acc) []

/-- All parse results stored across the releases of a `released` dict. -/
def relsVals (rels : List (Option Version × Release)) : List ParseResult :=
  rels.foldr (fun vr acc => dictVals vr.2.elements ++ acc) []

/-- All parse results held by a loop state. -/
def RHState.vals (st : RHState) : List ParseResult :=
  dictVals st.unreleased ++ relsVals st.released

/-- All parse results held by a release history: the union of the
`unreleased` buckets and of the buckets of every release. -/
def ReleaseHistory.allResults (rh : ReleaseHistory) : List ParseResult :=
  dictVals rh.unreleased ++ relsVals rh.released

/-- Every result in every bucket of a per-type dict carries the key of its
bucket. -/
def dictTyped (d : List (String × List ParseResult)) : Prop :=
  ∀ kv ∈ d, ∀ r ∈ kv.2, resultKey r = kv.1

/-- The loop invariant tying the `is_commit_released` flag to the state:
once a tag has been seen, the current version exists and owns an entry of
`released`. -/
def rhKeysOk (st : RHState) : Prop :=
  st.is_commit_released = true → ∃ v, st.the_version = some v ∧
    hasRelKey st.released (some v) = true

/-- Both dicts of the state hold every result under its own type key. -/
def rhTyped (st : RHState) : Prop :=
  dictTyped st.unreleased ∧ ∀ p ∈ st.released, dictTyped p.2.elements

/-- The repository of the C6 witness: an unreleased `feat: d` on top of the
commit tagged `v1.0.0` (an annotated tag) whose message is `fix: b`. -/
def c6Repo : RepoCap :=
  { tags := [⟨"v1.0.0", 2, .annotated "the-tagger" 0 100⟩],
    store := [],
    activeBranch := "main",
    mergeBase := fun _ _ => [],
    iterCommitsAll :=
      [{ sha := 1, message := "feat: d" }, { sha := 2, message := "fix: b" }],
    iterCommitsSince := fun _ => [] }

/-- The release history computed for `c6Repo`: `feat: d` in
`unreleased["feature"]` and `fix: b` in `released[1.0.0]["fix"]`. -/
def c6Rh : ReleaseHistory :=
  { unreleased := [("feature",
      [.parsed ⟨.MINOR, "feature", none, ["d"], [],
        { sha := 1, message := "feat: d" }⟩])],
    released := [(some ⟨1, 0, 0, none, none⟩,
      { tagger := "the-tagger", committer := defaultCommitterActor,
        tagged_date := (100, 0),
        elements := [("fix",
          [.parsed ⟨.PATCH, "fix", none, ["b"], [],
            { sha := 2, message := "fix: b" }⟩])] })] }

/-- C8: for every `Version v` and every `LevelBump level`, `v.bump(level)`
(with the Python default arguments) is strictly greater than `v` under semver
precedence whenever `level > NO_RELEASE`, and `v.bump(NO_RELEASE)` equals `v`
(the Python code returns a fresh copy; values are compared here, and `v`
itself — being a value — is unchanged). -/
theorem version_bump_strictly_increases (v : Version) (level : LevelBump) :
    (level ≠ .NO_RELEASE → Version.vLt v (v.bump level) = true) ∧
    v.bump .NO_RELEASE = v := by
  constructor
  · intro hlevel
    cases level with
    | NO_RELEASE => exact absurd rfl hlevel
    | MAJOR =>
        have h1 : compare v.major (v.major + 1) = .lt :=
          Nat.compare_eq_lt.mpr (Nat.lt_succ_self _)
        simp [Version.bump, Version.vLt, Version.compareV, h1, Ordering.then]
        rfl
    | MINOR =>
        have h0 : compare v.major v.major = .eq := Nat.compare_eq_eq.mpr rfl
        have h1 : compare v.minor (v.minor + 1) = .lt :=
          Nat.compare_eq_lt.mpr (Nat.lt_succ_self _)
        simp [Version.bump, Version.vLt, Version.compareV, h0, h1,
          Ordering.then]
        rfl
    | PATCH =>
        have h0 : compare v.major v.major = .eq := Nat.compare_eq_eq.mpr rfl
        have h0m : compare v.minor v.minor = .eq := Nat.compare_eq_eq.mpr rfl
        have h1 : compare v.patch (v.patch + 1) = .lt :=
          Nat.compare_eq_lt.mpr (Nat.lt_succ_self _)
        simp [Version.bump, Version.vLt, Version.compareV, h0, h0m, h1,
          Ordering.then]
        rfl
  · simp [Version.bump]

/-- Witness for C8 at the concrete input `1.2.3-rc.1` with a `MINOR` bump. -/
theorem version_bump_strictly_increases_witness :
    Version.vLt ⟨1, 2, 3, some ("rc", 1), none⟩
      ((⟨1, 2, 3, some ("rc", 1), none⟩ : Version).bump .MINOR) = true ∧
    (⟨1, 2, 3, some ("rc", 1), none⟩ : Version).bump .NO_RELEASE =
      ⟨1, 2, 3, some ("rc", 1), none⟩ :=
  ⟨(version_bump_strictly_increases ⟨1, 2, 3, some ("rc", 1), none⟩
      .MINOR).1 (by decide),
   (version_bump_strictly_increases ⟨1, 2, 3, some ("rc", 1), none⟩
      .NO_RELEASE).2⟩

/-- C2 (code bug): on a history with a merge commit,
`_bfs_for_latest_version_in_history` returns `None` even though an ancestor
of the merge base — here commit `4`, an ancestor of merge base `0` — carries
a full-release tag: dequeuing the already-visited commit `3` makes the
search return `None` before commit `4` is ever examined, contradicting the
claimed exhaustive ancestry search (and the docstring of the function). -/
theorem bfs_aborts_on_visited_commit :
    _bfs_for_latest_version_in_history mergeHistoryStore 0 mergeHistoryTags =
      none ∧
    AncestorOf mergeHistoryStore 0 4 ∧
    mergeHistoryTags.map (fun tv => tv.1.target) = [4] := by
  refine ⟨?_, ?_, rfl⟩
  · simp [_bfs_for_latest_version_in_history, bfsSearch, parentsOf,
      mergeHistoryStore, mergeHistoryTags]
  · have h1 : AncestorOf mergeHistoryStore 0 1 :=
      .step { sha := 0, message := "m", parents := [1, 2] } (by decide) rfl
        (by decide) (.refl 0)
    have h3 : AncestorOf mergeHistoryStore 0 3 :=
      .step { sha := 1, message := "a", parents := [3] } (by decide) rfl
        (by decide) h1
    exact .step { sha := 3, message := "c", parents := [4] } (by decide) rfl
      (by decide) h3

/-- C3 (code bug): `tags_and_versions` does not drop tags whose name fails to
translate.  With the single tag `random-tag` (which the default translator
maps to `None`) the returned list still carries the pair, with version
`None`; and as soon as a second, translatable tag is present, the descending
sort compares a `Version` with `None` and the call raises `TypeError`
instead of returning the translatable pairs. -/
theorem tags_and_versions_keeps_untranslated :
    ({} : VersionTranslator).from_tag "random-tag" = none ∧
    tags_and_versions [⟨"random-tag", 7, .commitObj "" 0 0⟩]
      ({} : VersionTranslator) =
      .ok [(⟨"random-tag", 7, .commitObj "" 0 0⟩, none)] ∧
    tags_and_versions
      [⟨"v1.0.0", 4, .commitObj "" 0 0⟩, ⟨"random-tag", 7, .commitObj "" 0 0⟩]
      ({} : VersionTranslator) = .error .typeError := by
  refine ⟨rfl, rfl, rfl⟩

/-- C4: in prerelease mode, when the effective level bump does not exceed the
`LevelBump` difference between the latest version and the latest full version
in history, `_increment_version` keeps the core triple of the latest version
and only sets the prerelease suffix — restarting the revision at 1 when the
existing token differs from the configured one and incrementing it
otherwise; when the effective bump exceeds that difference, the result is
the finalized latest full version bumped by that level with the configured
token at revision 1. -/
theorem increment_version_prerelease_progression
    (lv lfv lfvih : Version) (lb : LevelBump) (tok : String) (mo0 : Bool) :
    (LevelBump.lbLt (lv.sub lfvih) (effectiveBump lv lb mo0) = false →
      _increment_version lv lfv lfvih lb true tok mo0 =
        lv.to_prerelease tok
          (if lv.prereleaseToken ≠ some tok then 1
           else lv.prereleaseRevision.getD 0 + 1) ∧
      (_increment_version lv lfv lfvih lb true tok mo0).major = lv.major ∧
      (_increment_version lv lfv lfvih lb true tok mo0).minor = lv.minor ∧
      (_increment_version lv lfv lfvih lb true tok mo0).patch = lv.patch) ∧
    (LevelBump.lbLt (lv.sub lfvih) (effectiveBump lv lb mo0) = true →
      _increment_version lv lfv lfvih lb true tok mo0 =
        (lfv.finalize_version.bump (effectiveBump lv lb mo0)).to_prerelease
          tok 1) := by
  constructor
  · intro h
    refine ⟨?_, ?_, ?_, ?_⟩ <;>
      simp [_increment_version, h, Version.to_prerelease]
  · intro h
    simp [_increment_version, h]

/-- Witness for C4: from latest version `1.2.4-rc.1` over the full release
`1.2.3` with token `rc`, a `PATCH` bump (a fix commit) stays within the
prerelease diff and yields `1.2.4-rc.2`, while a `MINOR` bump (a feat
commit) exceeds it and yields `1.3.0-rc.1`. -/
theorem increment_version_prerelease_progression_witness :
    _increment_version ⟨1, 2, 4, some ("rc", 1), none⟩ ⟨1, 2, 3, none, none⟩
        ⟨1, 2, 3, none, none⟩ .PATCH true "rc" true =
      ⟨1, 2, 4, some ("rc", 2), none⟩ ∧
    _increment_version ⟨1, 2, 4, some ("rc", 1), none⟩ ⟨1, 2, 3, none, none⟩
        ⟨1, 2, 3, none, none⟩ .MINOR true "rc" true =
      ⟨1, 3, 0, some ("rc", 1), none⟩ := by
  constructor
  · have h := (increment_version_prerelease_progression
      ⟨1, 2, 4, some ("rc", 1), none⟩ ⟨1, 2, 3, none, none⟩
      ⟨1, 2, 3, none, none⟩ .PATCH "rc" true).1 (by decide)
    rw [h.1]; rfl
  · have h := (increment_version_prerelease_progression
      ⟨1, 2, 4, some ("rc", 1), none⟩ ⟨1, 2, 3, none, none⟩
      ⟨1, 2, 3, none, none⟩ .MINOR "rc" true).2 (by decide)
    rw [h]; rfl

theorem walkCommits_no_tag (parse : GitCommit → ParseResult)
    (cands : List (GitTag × Version)) (cs : List GitCommit)
    (h : ∀ c ∈ cs, cands.find? (fun tv => tv.1.target == c.sha) = none) :
    walkCommits parse cands cs = (collectLevels parse cs, none) := by
  induction cs with
  | nil => rfl
  | cons c rest ih =>
      have hc := h c (by simp)
      have hrest : ∀ x ∈ rest,
          cands.find? (fun tv => tv.1.target == x.sha) = none :=
        fun x hx => h x (by simp [hx])
      simp only [walkCommits, collectLevels, hc, ih hrest]

theorem lbMax_major_right (a : LevelBump) :
    LevelBump.lbMax a .MAJOR = .MAJOR := by
  cases a <;> rfl

theorem lbMax_major_left (a : LevelBump) :
    LevelBump.lbMax .MAJOR a = .MAJOR := by
  cases a <;> rfl

theorem foldl_lbMax_of_mem_major (l : List LevelBump) (acc : LevelBump)
    (h : .MAJOR ∈ l ∨ acc = .MAJOR) :
    l.foldl LevelBump.lbMax acc = .MAJOR := by
  induction l generalizing acc with
  | nil =>
      rcases h with h | h
      · simp at h
      · simpa using h
  | cons a t ih =>
      simp only [List.foldl_cons]
      apply ih
      rcases h with h | h
      · rcases List.mem_cons.mp h with h | h
        · subst h
          exact Or.inr (lbMax_major_right acc)
        · exact Or.inl h
      · subst h
        exact Or.inr (lbMax_major_left a)

/-- Evaluation of `next_version` on a repository in the shape shared by the
concrete spec scenarios: a single full-release tag on commit `s`, the merge
base of that tag and the active branch being `s` itself, and none of the
commits above the tag carrying a tag.  The result only depends on the
maximum parsed level of those commits. -/
theorem next_version_single_tag_scenario
    (repo : RepoCap) (cs : List GitCommit) (s : Nat) (tagObj : TagObjData)
    (tagName : String) (tv : Version) (prerelease major_on_zero : Bool)
    (parse : GitCommit → ParseResult)
    (htag : ({} : VersionTranslator).from_tag tagName = some tv)
    (hfull : tv.is_prerelease = false)
    (htags : repo.tags = [⟨tagName, s, tagObj⟩])
    (hmb : repo.mergeBase tagName repo.activeBranch = [some s])
    (hsince : repo.iterCommitsSince tv = cs)
    (hnotags : ∀ c ∈ cs, c.sha ≠ s) :
    next_version repo {} parse prerelease major_on_zero =
      (if (collectLevels parse cs).foldl LevelBump.lbMax .NO_RELEASE =
          .NO_RELEASE then
        Except.ok tv
      else
        Except.ok (_increment_version tv tv tv
          ((collectLevels parse cs).foldl LevelBump.lbMax .NO_RELEASE)
          prerelease "rc" major_on_zero)) := by
  have h1 : tags_and_versions repo.tags ({} : VersionTranslator) =
      .ok [(⟨tagName, s, tagObj⟩, some tv)] := by
    rw [htags]
    simp [tags_and_versions, htag]
  have hwalk : walkCommits parse [(⟨tagName, s, tagObj⟩, tv)] cs =
      (collectLevels parse cs, none) := by
    apply walkCommits_no_tag
    intro c hc
    have : (s == c.sha) = false := by
      simpa using (hnotags c hc).symm
    simp [List.find?, this]
  unfold next_version
  rw [h1]
  simp only [Except.bind, bind]
  have h00 : parseVersion "0.0.0" = some ⟨0, 0, 0, none, none⟩ := rfl
  simp [pyUnwrapPairs, VersionTranslator.from_string, h00, hfull, hmb, hsince,
    hwalk, _bfs_for_latest_version_in_history, bfsSearch, List.find?,
    parentsOf, pure, Except.pure]

/-- C1: for a repository whose latest tag is the full release `v1.2.3`, on a
non-prerelease branch with `major_on_zero=true`, where the commits since the
tag parse with the Angular parser to the levels `MINOR`, `PATCH` and `MAJOR`
(and none of them is tagged), `next_version` combines the parsed levels into
their maximum `MAJOR` and returns `2.0.0`. -/
theorem next_version_major_bump_angular
    (repo : RepoCap) (cs : List GitCommit) (s : Nat) (tagObj : TagObjData)
    (htags : repo.tags = [⟨"v1.2.3", s, tagObj⟩])
    (hmb : repo.mergeBase "v1.2.3" repo.activeBranch = [some s])
    (hsince : repo.iterCommitsSince ⟨1, 2, 3, none, none⟩ = cs)
    (hnotags : ∀ c ∈ cs, c.sha ≠ s)
    (hlevels : (collectLevels (angularParse {}) cs).toFinset =
      {LevelBump.MINOR, LevelBump.PATCH, LevelBump.MAJOR}) :
    next_version repo {} (angularParse {}) false true =
      .ok ⟨2, 0, 0, none, none⟩ := by
  have h := next_version_single_tag_scenario repo cs s tagObj "v1.2.3"
    ⟨1, 2, 3, none, none⟩ false true (angularParse {}) rfl rfl htags hmb
    hsince hnotags
  rw [h]
  have hmax : (collectLevels (angularParse {}) cs).foldl LevelBump.lbMax
      .NO_RELEASE = .MAJOR := by
    apply foldl_lbMax_of_mem_major
    left
    rw [← List.mem_toFinset, hlevels]
    decide
  rw [hmax]
  rfl

/-- Witness for C1 at the concrete scenario of the spec. -/
theorem next_version_major_bump_angular_witness :
    next_version c1Repo {} (angularParse {}) false true =
      .ok ⟨2, 0, 0, none, none⟩ :=
  next_version_major_bump_angular c1Repo c1Commits 4 (.commitObj "" 0 0)
    rfl rfl rfl (by decide) (by decide)

/-- C5: for every input of `_increment_version` with `major_on_zero=false`
and a latest version of major 0, the level bump is clamped to at most
`MINOR` before any increment is applied (the run is identical to one with
the clamped bump and no clamping condition); with a nonzero major the bump
is left unchanged; and from `v0.5.0` with a breaking (MAJOR) commit on a
non-prerelease branch, `next_version` returns `0.6.0`. -/
theorem increment_version_major_on_zero_clamp :
    (∀ (lv lfv lfvih : Version) (lb : LevelBump) (pre : Bool) (tok : String),
      lv.major = 0 →
      _increment_version lv lfv lfvih lb pre tok false =
        _increment_version lv lfv lfvih (LevelBump.lbMin lb .MINOR) pre tok
          true) ∧
    (∀ (lv lfv lfvih : Version) (lb : LevelBump) (pre : Bool) (tok : String),
      lv.major ≠ 0 →
      _increment_version lv lfv lfvih lb pre tok false =
        _increment_version lv lfv lfvih lb pre tok true) ∧
    (∀ (repo : RepoCap) (cs : List GitCommit) (s : Nat) (tagObj : TagObjData),
      repo.tags = [⟨"v0.5.0", s, tagObj⟩] →
      repo.mergeBase "v0.5.0" repo.activeBranch = [some s] →
      repo.iterCommitsSince ⟨0, 5, 0, none, none⟩ = cs →
      (∀ c ∈ cs, c.sha ≠ s) →
      (collectLevels (angularParse {}) cs).toFinset = {LevelBump.MAJOR} →
      next_version repo {} (angularParse {}) false false =
        .ok ⟨0, 6, 0, none, none⟩) := by
  refine ⟨?_, ?_, ?_⟩
  · intro lv lfv lfvih lb pre tok h
    have e1 : effectiveBump lv lb false = LevelBump.lbMin lb .MINOR := by
      simp [effectiveBump, h]
    have e2 : effectiveBump lv (LevelBump.lbMin lb .MINOR) true =
        LevelBump.lbMin lb .MINOR := by
      simp [effectiveBump]
    simp only [_increment_version, e1, e2]
  · intro lv lfv lfvih lb pre tok h
    have e1 : effectiveBump lv lb false = lb := by
      simp [effectiveBump, h]
    have e2 : effectiveBump lv lb true = lb := by
      simp [effectiveBump]
    simp only [_increment_version, e1, e2]
  · intro repo cs s tagObj htags hmb hsince hnotags hlevels
    have h := next_version_single_tag_scenario repo cs s tagObj "v0.5.0"
      ⟨0, 5, 0, none, none⟩ false false (angularParse {}) rfl rfl htags hmb
      hsince hnotags
    rw [h]
    have hmax : (collectLevels (angularParse {}) cs).foldl LevelBump.lbMax
        .NO_RELEASE = .MAJOR := by
      apply foldl_lbMax_of_mem_major
      left
      rw [← List.mem_toFinset, hlevels]
      decide
    rw [hmax]
    rfl

/-- Witness for C5: the clamp equality at `0.5.0` with a `MAJOR` bump, and
the concrete `0.5.0 + feat!` scenario returning `0.6.0`. -/
theorem increment_version_major_on_zero_clamp_witness :
    _increment_version ⟨0, 5, 0, none, none⟩ ⟨0, 5, 0, none, none⟩
        ⟨0, 5, 0, none, none⟩ .MAJOR false "rc" false =
      _increment_version ⟨0, 5, 0, none, none⟩ ⟨0, 5, 0, none, none⟩
        ⟨0, 5, 0, none, none⟩ (LevelBump.lbMin .MAJOR .MINOR) false "rc"
        true ∧
    next_version c5Repo {} (angularParse {}) false false =
      .ok ⟨0, 6, 0, none, none⟩ :=
  ⟨increment_version_major_on_zero_clamp.1 ⟨0, 5, 0, none, none⟩
      ⟨0, 5, 0, none, none⟩ ⟨0, 5, 0, none, none⟩ .MAJOR false "rc" rfl,
   increment_version_major_on_zero_clamp.2.2 c5Repo
      [{ sha := 1, message := "feat!: X" }] 4 (.commitObj "" 0 0) rfl rfl rfl
      (by decide) (by decide)⟩

/-- C7: for every commit and every parser configuration, `angularParse` is a
total function — no exception escapes it: a message that does not match the
conventional-commit pattern yields a `ParseError` value, a matching message
yields a `ParsedCommit` whose bump is `MAJOR` when the `!` marker is present
or some body paragraph matches the breaking-change trailer, else `MINOR` for
a type among `minor_tags`, else `PATCH` for a type among `patch_tags`, else
the configured default bump level; and a `ParseError` turns into the
exception `CommitParseError` only through an explicit call of
`raise_error`. -/
theorem angular_parse_total_and_bump (opts : AngularParserOptions)
    (commit : GitCommit) :
    (angularMatchR opts.allowed_tags commit.message = none →
      angularParse opts commit =
        .failed ⟨commit, "Unable to parse commit message"⟩) ∧
    (∀ m, angularMatchR opts.allowed_tags commit.message = some m →
      ∃ p, angularParse opts commit = .parsed p ∧
        p.bump =
          (if m.brk = true ∨
              ∃ par ∈ paragraphsOfMatch m, (breakingMatch par).isSome = true
           then LevelBump.MAJOR
           else if m.ptype ∈ opts.minor_tags then LevelBump.MINOR
           else if m.ptype ∈ opts.patch_tags then LevelBump.PATCH
           else opts.default_bump_level)) ∧
    (∀ e : ParseError,
      e.raise_error = .error (.commitParseError e.error)) := by
  refine ⟨?_, ?_, fun e => rfl⟩
  · intro h
    simp [angularParse, h]
  · intro m hm
    simp only [angularParse, hm]
    refine ⟨_, rfl, ?_⟩
    have hdrop :
        ((m.subject :: (match m.text with
          | some t => parse_paragraphs t
          | none => [])).drop 1) = paragraphsOfMatch m := by
      simp [paragraphsOfMatch]
    rw [hdrop]
    have hbrkiff :
        (m.brk || !((paragraphsOfMatch m).filterMap breakingMatch).isEmpty) =
            true ↔
          (m.brk = true ∨
            ∃ par ∈ paragraphsOfMatch m, (breakingMatch par).isSome = true) := by
      simp [List.isEmpty_iff, List.filterMap_eq_nil_iff,
        Option.isSome_iff_ne_none]
    by_cases hb : m.brk = true ∨
        ∃ par ∈ paragraphsOfMatch m, (breakingMatch par).isSome = true
    · rw [if_pos hb, if_pos (hbrkiff.mpr hb)]
    · rw [if_neg hb]
      have hcond : (m.brk ||
          !((paragraphsOfMatch m).filterMap breakingMatch).isEmpty) = false :=
        Bool.eq_false_iff.mpr (fun hc => hb (hbrkiff.mp hc))
      by_cases h1 : m.ptype ∈ opts.minor_tags
      · simp [hcond, h1]
      · by_cases h2 : m.ptype ∈ opts.patch_tags <;> simp [hcond, h1, h2]

/-- Witness for C7: `feat!: C` parses to a `ParsedCommit` with bump `MAJOR`,
`nonsense` parses to a `ParseError`, and `raise_error` on a concrete
`ParseError` is the `CommitParseError` exception. -/
theorem angular_parse_total_and_bump_witness :
    (∃ p, angularParse {} { sha := 1, message := "feat!: C" } = .parsed p ∧
      p.bump = LevelBump.MAJOR) ∧
    angularParse {} { sha := 2, message := "nonsense" } =
      .failed ⟨{ sha := 2, message := "nonsense" },
        "Unable to parse commit message"⟩ ∧
    ParseError.raise_error ⟨{ sha := 3, message := "m" }, "boom"⟩ =
      .error (.commitParseError "boom") := by
  refine ⟨?_, ?_, ?_⟩
  · obtain ⟨p, hp, hb⟩ :=
      (angular_parse_total_and_bump {} { sha := 1, message := "feat!: C" }).2.1
        ⟨"feat", none, true, "C", none⟩ rfl
    exact ⟨p, hp, by rw [hb]; decide⟩
  · exact (angular_parse_total_and_bump {}
      { sha := 2, message := "nonsense" }).1 rfl
  · exact (angular_parse_total_and_bump {}
      { sha := 3, message := "m" }).2.2 ⟨{ sha := 3, message := "m" }, "boom"⟩

theorem tagParse_no_token_failed (opts : TagParserOptions)
    (commit : GitCommit)
    (hminor : pyIn opts.minor_tag commit.message = false)
    (hpatch : pyIn opts.patch_tag commit.message = false) :
    ∃ e, tagParse opts commit = .failed e := by
  refine ⟨⟨commit,
    "Unable to parse the given commit message: " ++ commit.message⟩, ?_⟩
  cases h : tagReMatch commit.message with
  | none => simp [tagParse, h]
  | some st =>
      obtain ⟨subject0, text⟩ := st
      simp [tagParse, h, hminor, hpatch]

/-- C10: for every commit message containing neither the configured minor
tag token nor the configured patch tag token, the legacy tag parser returns
a `ParseError` — even when a body paragraph matches the breaking-change
trailer — and dually, a `ParsedCommit` with a `MAJOR` bump can only come
from a message in which one of the two tokens was found. -/
theorem tag_parse_requires_tag_token :
    (∀ (opts : TagParserOptions) (commit : GitCommit),
      pyIn opts.minor_tag commit.message = false →
      pyIn opts.patch_tag commit.message = false →
      ∃ e, tagParse opts commit = .failed e) ∧
    (∀ (opts : TagParserOptions) (commit : GitCommit) (p : ParsedCommit),
      tagParse opts commit = .parsed p → p.bump = .MAJOR →
      pyIn opts.minor_tag commit.message = true ∨
      pyIn opts.patch_tag commit.message = true) := by
  constructor
  · exact tagParse_no_token_failed
  · intro opts commit p hp _
    by_cases h1 : pyIn opts.minor_tag commit.message = true
    · exact Or.inl h1
    by_cases h2 : pyIn opts.patch_tag commit.message = true
    · exact Or.inr h2
    exfalso
    obtain ⟨e, he⟩ := tagParse_no_token_failed opts commit
      (Bool.eq_false_iff.mpr h1) (Bool.eq_false_iff.mpr h2)
    rw [hp] at he
    exact ParseResult.noConfusion he

/-- Witness for C10: a message with a breaking-change trailer but no tag
token is rejected, and the `:nut_and_bolt:` + trailer message that does parse
with bump `MAJOR` indeed contains a token. -/
theorem tag_parse_requires_tag_token_witness :
    (∃ e, tagParse {}
      { sha := 1, message := "doc stuff\n\nBREAKING CHANGE: everything" } =
        .failed e) ∧
    (pyIn ":sparkles:"
        ":nut_and_bolt: fix\n\nBREAKING CHANGE: yep" = true ∨
      pyIn ":nut_and_bolt:"
        ":nut_and_bolt: fix\n\nBREAKING CHANGE: yep" = true) :=
  ⟨tag_parse_requires_tag_token.1 {}
      { sha := 1, message := "doc stuff\n\nBREAKING CHANGE: everything" }
      (by decide) (by decide),
   tag_parse_requires_tag_token.2 {}
      { sha := 2, message := ":nut_and_bolt: fix\n\nBREAKING CHANGE: yep" }
      ⟨.MAJOR, "breaking", none, ["fix", "BREAKING CHANGE: yep"], ["yep"],
        { sha := 2, message := ":nut_and_bolt: fix\n\nBREAKING CHANGE: yep" }⟩
      (by decide) rfl⟩

/-- C9 counterexample: the claim that an unsupported operation "returns a
value distinguishable from a successful result" is false for
`check_build_status`: the base class returns `True`, the very value a
supporting Gitlab client returns for a successful build check (here: the
check over an empty job list, which `hvcs/gitlab.py` line 103 answers with
`True`). -/
theorem hvcs_not_supported_indistinguishable :
    ¬ (HvcsBase.check_build_status "abc123" ≠
        PyVal.bool (gitlabCheckBuildStatus [])) := by
  intro h
  exact h rfl

/-- C9 (amended): calling an unsupported operation on the base client never
raises and never aborts — each operation is total and returns the constant
`True` after emitting a warning.  For an operation annotated to return a
string this differs from any genuine result, but for the boolean-returning
operations (`check_build_status`, `create_release`, `upload_asset`, ...) it
coincides with the successful result, so the return value alone is not a
distinguishable "not supported" signal; only the emitted warning is. -/
theorem hvcs_not_supported_returns_true (a b ref tag changelog file ch prn
    rid2 : String) (pre useTok : Bool) (rid n : Int)
    (label : Option String) :
    HvcsBase.compare_url a b = .bool true ∧
    HvcsBase.check_build_status ref = .bool true ∧
    HvcsBase.upload_dists tag file = .bool true ∧
    HvcsBase.create_release tag changelog pre = .bool true ∧
    HvcsBase.get_release_id_by_tag tag = .bool true ∧
    HvcsBase.edit_release_changelog n changelog = .bool true ∧
    HvcsBase.create_or_update_release tag changelog pre = .bool true ∧
    HvcsBase.asset_upload_url rid2 = .bool true ∧
    HvcsBase.upload_asset rid file label = .bool true ∧
    HvcsBase.remote_url useTok = .bool true ∧
    HvcsBase.commit_hash_url ch = .bool true ∧
    HvcsBase.pull_request_url prn = .bool true :=
  ⟨rfl, rfl, rfl, rfl, rfl, rfl, rfl, rfl, rfl, rfl, rfl, rfl⟩

theorem dictVals_cons (kv : String × List ParseResult)
    (rest : List (String × List ParseResult)) :
    dictVals (kv :: rest) = kv.2 ++ dictVals rest := rfl

theorem relsVals_cons (x : Option Version × Release)
    (t : List (Option Version × Release)) :
    relsVals (x :: t) = dictVals x.2.elements ++ relsVals t := rfl

/-- Moving a singleton from the middle of an append to its end is a
permutation. -/
theorem perm_rotate_singleton (a b : List ParseResult) (r : ParseResult) :
    ((a ++ [r]) ++ b).Perm ((a ++ b) ++ [r]) := by
  simp only [List.append_assoc]
  exact List.Perm.append_left a List.perm_append_comm

theorem dictVals_dictAppend (d : List (String × List ParseResult))
    (k : String) (r : ParseResult) :
    (dictVals (dictAppend d k r)).Perm (dictVals d ++ [r]) := by
  induction d with
  | nil => simp [dictAppend, dictVals]
  | cons kv rest ih =>
      obtain ⟨k0, l0⟩ := kv
      by_cases h : k0 = k
      · simp only [dictAppend, if_pos h, dictVals_cons]
        exact perm_rotate_singleton l0 (dictVals rest) r
      · simp only [dictAppend, if_neg h, dictVals_cons]
        refine List.Perm.trans (List.Perm.append_left l0 ih) ?_
        simp only [List.append_assoc]
        exact List.Perm.refl _

theorem dictTyped_dictAppend (d : List (String × List ParseResult))
    (k : String) (r : ParseResult) (hd : dictTyped d)
    (hr : resultKey r = k) : dictTyped (dictAppend d k r) := by
  induction d with
  | nil =>
      intro kv hkv r0 hr0
      simp only [dictAppend, List.mem_singleton] at hkv
      subst hkv
      simp only [List.mem_singleton] at hr0
      subst hr0
      exact hr
  | cons kv0 rest ih =>
      obtain ⟨k0, l0⟩ := kv0
      by_cases h : k0 = k
      · intro kv hkv r0 hr0
        simp only [dictAppend, if_pos h, List.mem_cons] at hkv
        rcases hkv with hkv | hkv
        · subst hkv
          simp only [List.mem_append, List.mem_singleton] at hr0
          rcases hr0 with hr0 | hr0
          · exact hd (k0, l0) (List.mem_cons_self _ _) r0 hr0
          · subst hr0; rw [hr, h]
        · exact hd kv (List.mem_cons_of_mem _ hkv) r0 hr0
      · intro kv hkv r0 hr0
        simp only [dictAppend, if_neg h, List.mem_cons] at hkv
        rcases hkv with hkv | hkv
        · subst hkv
          exact hd (k0, l0) (List.mem_cons_self _ _) r0 hr0
        · exact ih (fun kv1 hkv1 => hd kv1 (List.mem_cons_of_mem _ hkv1)) kv
            hkv r0 hr0

theorem relsVals_append (a b : List (Option Version × Release)) :
    relsVals (a ++ b) = relsVals a ++ relsVals b := by
  induction a with
  | nil => simp [relsVals]
  | cons x t ih =>
      simp only [List.cons_append, relsVals_cons, ih, List.append_assoc]

theorem relsVals_setdefault (rels : List (Option Version × Release))
    (k : Option Version) (tag : GitTag) :
    relsVals (setdefaultRel rels k (mkRelease tag)) = relsVals rels := by
  unfold setdefaultRel
  by_cases h : hasRelKey rels k
  · rw [if_pos h]
  · rw [if_neg h, relsVals_append]
    have hone : relsVals [(k, mkRelease tag)] = [] := by
      unfold mkRelease
      cases tag.obj <;> simp [relsVals, dictVals]
    rw [hone, List.append_nil]

theorem hasRelKey_setdefault_self (rels : List (Option Version × Release))
    (k : Option Version) (rel : Release) :
    hasRelKey (setdefaultRel rels k rel) k = true := by
  unfold setdefaultRel
  by_cases h : hasRelKey rels k
  · rw [if_pos h]; exact h
  · rw [if_neg h]
    unfold hasRelKey
    simp

theorem hasRelKey_appendRelElem (rels : List (Option Version × Release))
    (k k0 : Option Version) (ty : String) (r : ParseResult) :
    hasRelKey (appendRelElem rels k0 ty r) k = hasRelKey rels k := by
  induction rels with
  | nil => rfl
  | cons x t ih =>
      obtain ⟨kx, relx⟩ := x
      by_cases h : kx = k0
      · simp [appendRelElem, if_pos h, hasRelKey]
      · simp only [appendRelElem, if_neg h]
        simp only [hasRelKey, List.any_cons] at ih ⊢
        rw [ih]

theorem relsVals_appendRelElem (rels : List (Option Version × Release))
    (k : Option Version) (ty : String) (r : ParseResult)
    (hk : hasRelKey rels k = true) :
    (relsVals (appendRelElem rels k ty r)).Perm (relsVals rels ++ [r]) := by
  induction rels with
  | nil => simp [hasRelKey] at hk
  | cons x t ih =>
      obtain ⟨kx, relx⟩ := x
      by_cases h : kx = k
      · simp only [appendRelElem, if_pos h, relsVals_cons]
        refine List.Perm.trans
          (List.Perm.append_right (relsVals t) (dictVals_dictAppend _ _ _))
          ?_
        exact perm_rotate_singleton (dictVals relx.elements) (relsVals t) r
      · have hk2 : hasRelKey t k = true := by
          simp only [hasRelKey, List.any_cons, Bool.or_eq_true,
            decide_eq_true_eq] at hk
          rcases hk with hk | hk
          · exact absurd hk h
          · exact hk
        simp only [appendRelElem, if_neg h, relsVals_cons]
        refine List.Perm.trans
          (List.Perm.append_left (dictVals relx.elements) (ih hk2)) ?_
        simp only [List.append_assoc]
        exact List.Perm.refl _

theorem relsTyped_setdefault (rels : List (Option Version × Release))
    (k : Option Version) (tag : GitTag)
    (h : ∀ p ∈ rels, dictTyped p.2.elements) :
    ∀ p ∈ setdefaultRel rels k (mkRelease tag), dictTyped p.2.elements := by
  unfold setdefaultRel
  by_cases hk : hasRelKey rels k
  · rw [if_pos hk]; exact h
  · rw [if_neg hk]
    intro p hp
    rcases List.mem_append.mp hp with hp | hp
    · exact h p hp
    · simp only [List.mem_singleton] at hp
      subst hp
      unfold mkRelease
      cases tag.obj <;> (intro kv hkv; simp at hkv)

theorem relsTyped_appendRelElem (rels : List (Option Version × Release))
    (k : Option Version) (ty : String) (r : ParseResult)
    (h : ∀ p ∈ rels, dictTyped p.2.elements) (hr : resultKey r = ty) :
    ∀ p ∈ appendRelElem rels k ty r, dictTyped p.2.elements := by
  induction rels with
  | nil => intro p hp; simp [appendRelElem] at hp
  | cons x t ih =>
      obtain ⟨kx, relx⟩ := x
      by_cases hkx : kx = k
      · intro p hp
        simp only [appendRelElem, if_pos hkx, List.mem_cons] at hp
        rcases hp with hp | hp
        · subst hp
          exact dictTyped_dictAppend _ _ _
            (h (kx, relx) (List.mem_cons_self _ _)) hr
        · exact h p (List.mem_cons_of_mem _ hp)
      · intro p hp
        simp only [appendRelElem, if_neg hkx, List.mem_cons] at hp
        rcases hp with hp | hp
        · subst hp
          exact h _ (List.mem_cons_self _ _)
        · exact ih (fun q hq => h q (List.mem_cons_of_mem _ hq)) p hp

theorem rhStep_eq_tag (pairs : List (GitTag × Option Version))
    (parse : GitCommit → ParseResult) (st : RHState) (commit : GitCommit)
    (tag : GitTag) (version : Option Version)
    (hf : pairs.find? (fun tv => tv.1.target == commit.sha) =
      some (tag, version)) :
    rhStep pairs parse st commit =
      (match version with
       | none => .error .runtimeError
       | some v => .ok ⟨true, some v, st.unreleased,
           appendRelElem (setdefaultRel st.released version (mkRelease tag))
             (some v) (resultKey (parse commit)) (parse commit)⟩) := by
  unfold rhStep
  simp only [hf]
  cases version <;> rfl

theorem rhStep_eq_no_tag (pairs : List (GitTag × Option Version))
    (parse : GitCommit → ParseResult) (st : RHState) (commit : GitCommit)
    (hf : pairs.find? (fun tv => tv.1.target == commit.sha) = none) :
    rhStep pairs parse st commit =
      (if st.is_commit_released = false then
        .ok ⟨st.is_commit_released, st.the_version,
          dictAppend st.unreleased (resultKey (parse commit)) (parse commit),
          st.released⟩
      else
        match st.the_version with
        | none => .error .runtimeError
        | some v => .ok ⟨st.is_commit_released, st.the_version, st.unreleased,
            appendRelElem st.released (some v) (resultKey (parse commit))
              (parse commit)⟩) := by
  obtain ⟨isr, tv0, unr, rels⟩ := st
  unfold rhStep
  rw [hf]
  cases isr <;> rfl

theorem rhStep_spec (pairs : List (GitTag × Option Version))
    (parse : GitCommit → ParseResult) (st : RHState) (commit : GitCommit)
    (st1 : RHState) (hok : rhKeysOk st)
    (h : rhStep pairs parse st commit = .ok st1) :
    rhKeysOk st1 ∧
    st1.vals.Perm (st.vals ++ [parse commit]) ∧
    (st.is_commit_released = true →
      st1.unreleased = st.unreleased ∧ st1.is_commit_released = true) ∧
    (st.is_commit_released = false →
      (pairs.find? (fun tv => tv.1.target == commit.sha) = none →
        st1.unreleased =
          dictAppend st.unreleased (resultKey (parse commit))
            (parse commit) ∧
        st1.is_commit_released = false) ∧
      ((pairs.find? (fun tv => tv.1.target == commit.sha)).isSome →
        st1.unreleased = st.unreleased ∧ st1.is_commit_released = true)) ∧
    (rhTyped st → rhTyped st1) := by
  cases hf : pairs.find? (fun tv => tv.1.target == commit.sha) with
  | some tv =>
      obtain ⟨tag, version⟩ := tv
      rw [rhStep_eq_tag pairs parse st commit tag version hf] at h
      cases version with
      | none => exact absurd h (by simp)
      | some v =>
          simp only [Except.ok.injEq] at h
          subst h
          refine ⟨?_, ?_, ?_, ?_, ?_⟩
          · intro _
            refine ⟨v, rfl, ?_⟩
            rw [hasRelKey_appendRelElem]
            exact hasRelKey_setdefault_self _ _ _
          · simp only [RHState.vals]
            have p1 := relsVals_appendRelElem
              (setdefaultRel st.released (some v) (mkRelease tag)) (some v)
              (resultKey (parse commit)) (parse commit)
              (hasRelKey_setdefault_self _ _ _)
            rw [relsVals_setdefault] at p1
            refine List.Perm.trans
              (List.Perm.append_left (dictVals st.unreleased) p1) ?_
            simp only [List.append_assoc]
            exact List.Perm.refl _
          · intro _; exact ⟨rfl, rfl⟩
          · intro _
            constructor
            · intro hnone
              exact Option.noConfusion hnone
            · intro _; exact ⟨rfl, rfl⟩
          · intro ht
            refine ⟨ht.1, ?_⟩
            exact relsTyped_appendRelElem _ _ _ _
              (relsTyped_setdefault _ _ _ ht.2) rfl
  | none =>
      rw [rhStep_eq_no_tag pairs parse st commit hf] at h
      cases hisr : st.is_commit_released with
      | false =>
          rw [if_pos hisr] at h
          simp only [Except.ok.injEq] at h
          subst h
          refine ⟨?_, ?_, ?_, ?_, ?_⟩
          · intro habs; rw [hisr] at habs; exact absurd habs (by simp)
          · simp only [RHState.vals]
            refine List.Perm.trans
              (List.Perm.append_right _ (dictVals_dictAppend _ _ _)) ?_
            exact perm_rotate_singleton _ _ _
          · intro habs; exact absurd habs (by simp)
          · intro _
            exact ⟨fun _ => ⟨rfl, hisr⟩,
              fun hsome => absurd hsome (by simp)⟩
          · intro ht
            exact ⟨dictTyped_dictAppend _ _ _ ht.1 rfl, ht.2⟩
      | true =>
          rw [if_neg (by rw [hisr]; simp)] at h
          obtain ⟨v, hv, hkey⟩ := hok hisr
          rw [hv] at h
          simp only [Except.ok.injEq] at h
          subst h
          refine ⟨?_, ?_, ?_, ?_, ?_⟩
          · intro _
            refine ⟨v, rfl, ?_⟩
            rw [hasRelKey_appendRelElem]
            exact hkey
          · simp only [RHState.vals]
            have p1 := relsVals_appendRelElem st.released (some v)
              (resultKey (parse commit)) (parse commit) hkey
            refine List.Perm.trans
              (List.Perm.append_left (dictVals st.unreleased) p1) ?_
            simp only [List.append_assoc]
            exact List.Perm.refl _
          · intro _; exact ⟨rfl, hisr⟩
          · intro habs; exact absurd habs (by simp)
          · intro ht
            exact ⟨ht.1, relsTyped_appendRelElem _ _ _ _ ht.2 rfl⟩

theorem rhFold_spec (pairs : List (GitTag × Option Version))
    (parse : GitCommit → ParseResult) (cs : List GitCommit) :
    ∀ (st st' : RHState), rhKeysOk st →
    List.foldlM (rhStep pairs parse) st cs = .ok st' →
    rhKeysOk st' ∧
    st'.vals.Perm (st.vals ++ cs.map parse) ∧
    (st.is_commit_released = false →
      (dictVals st'.unreleased).Perm (dictVals st.unreleased ++
        (cs.takeWhile (fun c =>
          (pairs.find? (fun tv => tv.1.target == c.sha)).isNone)).map
            parse)) ∧
    (st.is_commit_released = true → st'.unreleased = st.unreleased) ∧
    (rhTyped st → rhTyped st') := by
  induction cs with
  | nil =>
      intro st st' hok h
      simp only [List.foldlM_nil, pure, Except.pure, Except.ok.injEq] at h
      subst h
      refine ⟨hok, ?_, ?_, fun _ => rfl, fun ht => ht⟩
      · rw [List.map_nil, List.append_nil]
      · intro _
        rw [List.takeWhile_nil, List.map_nil, List.append_nil]
  | cons c rest ih =>
      intro st st' hok h
      rw [List.foldlM_cons] at h
      cases hstep : rhStep pairs parse st c with
      | error e =>
          rw [hstep] at h
          exact Except.noConfusion h
      | ok st1 =>
          rw [hstep] at h
          obtain ⟨hok1, hperm1, hfrozen1, hfresh1, htyped1⟩ :=
            rhStep_spec pairs parse st c st1 hok hstep
          obtain ⟨hok2, hperm2, hfresh2, hfrozen2, htyped2⟩ :=
            ih st1 st' hok1 h
          refine ⟨hok2, ?_, ?_, ?_, fun ht => htyped2 (htyped1 ht)⟩
          · refine List.Perm.trans hperm2 ?_
            refine List.Perm.trans (hperm1.append_right (rest.map parse)) ?_
            simp only [List.map_cons, List.append_assoc, List.singleton_append]
            exact List.Perm.refl _
          · intro hisr
            cases hscan : pairs.find? (fun tv => tv.1.target == c.sha) with
            | none =>
                obtain ⟨hunr1, hisr1⟩ := (hfresh1 hisr).1 hscan
                have htw : ((c :: rest).takeWhile (fun c0 =>
                    (pairs.find? (fun tv =>
                      tv.1.target == c0.sha)).isNone)) =
                    c :: rest.takeWhile (fun c0 =>
                      (pairs.find? (fun tv => tv.1.target == c0.sha)).isNone)
                    := by
                  rw [List.takeWhile_cons_of_pos]
                  simp [hscan]
                rw [htw]
                refine List.Perm.trans (hfresh2 hisr1) ?_
                rw [hunr1]
                refine List.Perm.trans
                  ((dictVals_dictAppend _ _ _).append_right _) ?_
                simp only [List.map_cons, List.append_assoc,
                  List.singleton_append]
                exact List.Perm.refl _
            | some tv0 =>
                obtain ⟨hunr1, hisr1⟩ := (hfresh1 hisr).2 (by simp [hscan])
                have htw : ((c :: rest).takeWhile (fun c0 =>
                    (pairs.find? (fun tv =>
                      tv.1.target == c0.sha)).isNone)) = [] := by
                  rw [List.takeWhile_cons_of_neg]
                  simp [hscan]
                rw [htw]
                rw [hfrozen2 hisr1, hunr1]
                simp
          · intro hisr
            obtain ⟨hunr1, hisr1⟩ := hfrozen1 hisr
            rw [hfrozen2 hisr1, hunr1]

/-- The tags paired by a successful `tags_and_versions` call are exactly the
input tags, reordered. -/
theorem tags_and_versions_fst_perm (tags : List GitTag)
    (tr : VersionTranslator) (pairs : List (GitTag × Option Version))
    (h : tags_and_versions tags tr = .ok pairs) :
    (pairs.map Prod.fst).Perm tags := by
  unfold tags_and_versions at h
  by_cases hlen : (tags.map (fun t => (t, tr.from_tag t.name))).length ≤ 1
  · rw [if_pos hlen] at h
    simp only [Except.ok.injEq] at h
    subst h
    simp only [List.map_map]
    have hid : (Prod.fst ∘ fun (t : GitTag) => (t, tr.from_tag t.name)) =
        id := rfl
    rw [hid, List.map_id]
  · rw [if_neg hlen] at h
    by_cases hall : (tags.map (fun t => (t, tr.from_tag t.name))).all
        (fun p => p.2.isSome)
    · rw [if_pos hall] at h
      simp only [Except.ok.injEq] at h
      subst h
      refine List.Perm.trans (List.Perm.map Prod.fst
        (List.perm_insertionSort _ _)) ?_
      simp only [List.map_map]
      have hid : (Prod.fst ∘ fun (t : GitTag) => (t, tr.from_tag t.name)) =
          id := rfl
      rw [hid, List.map_id]
    · rw [if_neg hall] at h
      exact absurd h (by simp)

/-- C6: whenever `release_history` succeeds, every commit walked lands in
exactly one bucket: the parse results collected across
`unreleased ∪ released[*].elements` are a permutation of the parse results
of the walked commits (so each commit appears exactly once over all
buckets); the `unreleased` buckets hold exactly the commits encountered
before the first tagged commit of the reverse-chronological walk; and every
bucket key equals `"unknown"` for a `ParseError` and the canonicalised type
of the `ParsedCommit` otherwise. -/
theorem release_history_partitions_commits (repo : RepoCap)
    (tr : VersionTranslator) (parse : GitCommit → ParseResult)
    (rh : ReleaseHistory) (h : release_history repo tr parse = .ok rh) :
    (rh.allResults).Perm (repo.iterCommitsAll.map parse) ∧
    (dictVals rh.unreleased).Perm
      ((repo.iterCommitsAll.takeWhile (fun c =>
        repo.tags.all (fun t => !(t.target == c.sha)))).map parse) ∧
    dictTyped rh.unreleased ∧
    (∀ p ∈ rh.released, dictTyped p.2.elements) := by
  unfold release_history at h
  cases hpairs : tags_and_versions repo.tags tr with
  | error e =>
      rw [hpairs] at h
      simp only [bind, Except.bind] at h
      exact Except.noConfusion h
  | ok pairs =>
      rw [hpairs] at h
      simp only [bind, Except.bind] at h
      cases hfold : List.foldlM (rhStep pairs parse) rhInit
          repo.iterCommitsAll with
      | error e =>
          rw [hfold] at h
          exact Except.noConfusion h
      | ok final =>
          rw [hfold] at h
          have h2 : (⟨final.unreleased, final.released⟩ : ReleaseHistory) =
              rh :=
            Except.ok.inj h
          obtain ⟨hok', hperm, hfresh, _, htyped⟩ :=
            rhFold_spec pairs parse repo.iterCommitsAll rhInit final
              (fun habs => absurd habs (by simp [rhInit])) hfold
          have hpred : (fun (c : GitCommit) => (pairs.find? (fun tv =>
              tv.1.target == c.sha)).isNone) =
              (fun (c : GitCommit) =>
                repo.tags.all (fun t => !(t.target == c.sha))) := by
            funext c
            have hmemiff := tags_and_versions_fst_perm repo.tags tr pairs
              hpairs
            rcases hfind : pairs.find? (fun tv => tv.1.target == c.sha) with
              _ | tv
            · rw [hfind]
              symm
              rw [Option.isNone_none, List.all_eq_true]
              intro t ht
              have hmem2 : t ∈ pairs.map Prod.fst := hmemiff.mem_iff.mpr ht
              obtain ⟨tv0, htv0, rfl⟩ := List.mem_map.mp hmem2
              have hne := List.find?_eq_none.mp hfind tv0 htv0
              simpa using hne
            · rw [hfind]
              have hsome := List.find?_some hfind
              have hmem : tv ∈ pairs := List.mem_of_find?_eq_some hfind
              symm
              rw [Option.isNone_some, Bool.eq_false_iff]
              intro hall
              rw [List.all_eq_true] at hall
              have hcontra := hall tv.1 (hmemiff.mem_iff.mp
                (List.mem_map_of_mem Prod.fst hmem))
              have hsome2 : (tv.1.target == c.sha) = true := by
                simpa using hsome
              rw [hsome2] at hcontra
              simp at hcontra
          subst h2
          constructor
          · have hp := hperm
            have hinit : rhInit.vals = [] := rfl
            rw [hinit, List.nil_append] at hp
            exact hp
          · constructor
            · have hf2 := hfresh rfl
              rw [hpred] at hf2
              have hinitu : dictVals rhInit.unreleased = [] := rfl
              rw [hinitu, List.nil_append] at hf2
              exact hf2
            · have ht := htyped ⟨fun kv hkv => absurd hkv
                  (List.not_mem_nil _),
                fun p hp => absurd hp (List.not_mem_nil _)⟩
              exact ⟨ht.1, ht.2⟩

/-- Witness for C6 at the concrete two-commit repository. -/
theorem release_history_partitions_commits_witness :
    (c6Rh.allResults).Perm (c6Repo.iterCommitsAll.map (angularParse {})) ∧
    (dictVals c6Rh.unreleased).Perm
      ((c6Repo.iterCommitsAll.takeWhile (fun c =>
        c6Repo.tags.all (fun t => !(t.target == c.sha)))).map
          (angularParse {})) ∧
    dictTyped c6Rh.unreleased ∧
    (∀ p ∈ c6Rh.released, dictTyped p.2.elements) :=
  release_history_partitions_commits c6Repo {} (angularParse {}) c6Rh rfl

end SemanticRelease
